import Mathlib

/-!
Verification development for the `reliance_reconciliation` repository.

The repository's core logic lives in
`reliance_reconciliation/api/ri_reconcilation.py`:

* `validate_and_reconcile` opens the Genesis and Smart Policy CSV files with
  `csv.DictReader`, strips the column names of both actual files and of two
  remote templates, and compares them (lines 75-95).
* `reconcile_background_job` re-opens both files with plain `csv.DictReader`
  (lines 126-127), runs the multi-key fallback matching loop (lines 136-165),
  collects the unmatched Smart Policy rows (lines 173-177) and persists the
  three counts as the lengths of the three lists (lines 180-194).

The embedding below models Python dicts as association lists in insertion
order, models `csv.DictReader` row construction (including the `restkey` and
`restval` behaviour on arity mismatch), and models the crucial detail of the
matching loop: `smart_policy_file.seek(0)` rewinds the file underlying the
*already started* `DictReader`, so from the second Genesis row on (and in the
final unmatched pass) the header line of the Smart Policy file is re-read as a
data row, yielding a synthetic record that maps every column name to itself.
-/

namespace Reliance

/-- A Python dict, modelled as an association list in insertion order.
Rows produced by `csv.DictReader` are dicts from column name to cell text. -/
abbrev Record := List (String × String)

/-- Python dict lookup: the value stored under `k` (dicts built by
`dictInsert` never hold duplicate keys, so the first hit is the value). -/
def dictLookup {α β : Type} [DecidableEq α] : List (α × β) → α → Option β
  | [], _ => none
  | p :: t, k => if p.1 = k then some p.2 else dictLookup t k

/-- Python dict insertion `d[k] = v`: update the existing entry in place
(keeping its position, as CPython dicts preserve insertion order) or append
a new entry at the end. -/
def dictInsert {α β : Type} [DecidableEq α] : List (α × β) → α → β → List (α × β)
  | [], k, v => [(k, v)]
  | p :: t, k, v => if p.1 = k then (k, v) :: t else p :: dictInsert t k v

/-- Python `{**a, **b}` and `dict.update`: start from `a` and insert every
entry of `b` in order, so `b`'s values win on colliding keys. -/
def dictMerge {α β : Type} [DecidableEq α] (a b : List (α × β)) : List (α × β) :=
  b.foldl (fun d p => dictInsert d p.1 p.2) a

/-- Python `dict(pairs)`: inserting every pair into an empty dict. -/
def mkDict {α β : Type} [DecidableEq α] (ps : List (α × β)) : List (α × β) :=
  dictMerge [] ps

/-- The keys of a dict, in insertion order. -/
def dictKeys {α β : Type} (d : List (α × β)) : List α := d.map Prod.fst

/-- Python dict equality `a == b`: same key set with equal values under every
key (order-insensitive). -/
def dictEqv {α β : Type} [DecidableEq α] [DecidableEq β]
    (a b : List (α × β)) : Bool :=
  a.all (fun p => decide (dictLookup b p.1 = some p.2)) &&
  b.all (fun p => decide (dictLookup a p.1 = some p.2))

/-- Python `x in l` for a list `l` of dicts: membership by `==`, i.e. by
value equality of the dicts, not by identity. -/
def pyMem {α β : Type} [DecidableEq α] [DecidableEq β]
    (x : List (α × β)) (l : List (List (α × β))) : Bool :=
  l.any (fun y => dictEqv x y)

theorem map_fst_zip_eq_take {α β : Type} :
    ∀ (l₁ : List α) (l₂ : List β), (l₁.zip l₂).map Prod.fst = l₁.take l₂.length
  | [], _ => by simp
  | _ :: _, [] => by simp
  | a :: l₁, b :: l₂ => by
    simp [List.zip_cons_cons, map_fst_zip_eq_take l₁ l₂]

theorem dictKeys_nil {α β : Type} : dictKeys ([] : List (α × β)) = [] := rfl

theorem dictKeys_cons {α β : Type} (p : α × β) (t : List (α × β)) :
    dictKeys (p :: t) = p.1 :: dictKeys t := rfl

theorem dictKeys_append {α β : Type} (a b : List (α × β)) :
    dictKeys (a ++ b) = dictKeys a ++ dictKeys b := by
  simp [dictKeys]

section DictLemmas

variable {α β : Type} [DecidableEq α]

theorem dictLookup_dictInsert (d : List (α × β)) (k k' : α) (v : β) :
    dictLookup (dictInsert d k v) k' = if k = k' then some v else dictLookup d k' := by
  induction d with
  | nil => simp [dictInsert, dictLookup]
  | cons p t ih =>
    by_cases hpk : p.1 = k
    · simp only [dictInsert, if_pos hpk]
      by_cases hkk : k = k'
      · simp [dictLookup, hkk]
      · have hpk' : ¬ p.1 = k' := fun h => hkk (hpk.symm.trans h)
        simp [dictLookup, hkk, hpk']
    · simp only [dictInsert, if_neg hpk]
      by_cases hpk' : p.1 = k'
      · have hkk : ¬ k = k' := fun h => hpk (by rw [hpk', ← h])
        simp [dictLookup, hpk', hkk]
      · simp [dictLookup, hpk', ih]

theorem dictKeys_dictInsert (d : List (α × β)) (k : α) (v : β) :
    dictKeys (dictInsert d k v) =
      if k ∈ dictKeys d then dictKeys d else dictKeys d ++ [k] := by
  induction d with
  | nil => simp [dictInsert, dictKeys]
  | cons p t ih =>
    by_cases hpk : p.1 = k
    · have hmem : k ∈ dictKeys (p :: t) := by
        rw [dictKeys_cons]
        exact List.mem_cons.mpr (Or.inl hpk.symm)
      rw [show dictInsert (p :: t) k v = (k, v) :: t from by simp [dictInsert, hpk],
        if_pos hmem, dictKeys_cons, dictKeys_cons, hpk]
    · have hne : ¬ k = p.1 := fun h => hpk h.symm
      have hiff : (k ∈ dictKeys (p :: t)) ↔ k ∈ dictKeys t := by
        rw [dictKeys_cons, List.mem_cons]
        exact ⟨fun h => h.resolve_left hne, Or.inr⟩
      rw [show dictInsert (p :: t) k v = p :: dictInsert t k v from by simp [dictInsert, hpk],
        dictKeys_cons, ih]
      by_cases hmem : k ∈ dictKeys t
      · rw [if_pos hmem, if_pos (hiff.mpr hmem), dictKeys_cons]
      · rw [if_neg hmem, if_neg (fun h => hmem (hiff.mp h)), dictKeys_cons, List.cons_append]

theorem dictInsert_of_not_mem {d : List (α × β)} {k : α} (v : β)
    (h : k ∉ dictKeys d) : dictInsert d k v = d ++ [(k, v)] := by
  induction d with
  | nil => simp [dictInsert]
  | cons p t ih =>
    rw [dictKeys_cons, List.mem_cons] at h
    push_neg at h
    have hpk : ¬ p.1 = k := fun hh => h.1 hh.symm
    simp [dictInsert, hpk, ih h.2]

theorem dictLookup_eq_none_of_not_mem {d : List (α × β)} {k : α}
    (h : k ∉ dictKeys d) : dictLookup d k = none := by
  induction d with
  | nil => rfl
  | cons p t ih =>
    rw [dictKeys_cons, List.mem_cons] at h
    push_neg at h
    have hpk : ¬ p.1 = k := fun hh => h.1 hh.symm
    simp [dictLookup, hpk, ih h.2]

theorem nodup_dictKeys_dictInsert {d : List (α × β)} (k : α) (v : β)
    (h : (dictKeys d).Nodup) : (dictKeys (dictInsert d k v)).Nodup := by
  rw [dictKeys_dictInsert]
  by_cases hmem : k ∈ dictKeys d
  · simpa [hmem] using h
  · rw [if_neg hmem]
    refine List.Nodup.append h (List.nodup_singleton k) ?_
    intro x hx hxk
    exact hmem ((List.mem_singleton.mp hxk) ▸ hx)

theorem dictMerge_cons (a : List (α × β)) (p : α × β) (t : List (α × β)) :
    dictMerge a (p :: t) = dictMerge (dictInsert a p.1 p.2) t := rfl

theorem nodup_dictKeys_dictMerge (a b : List (α × β))
    (h : (dictKeys a).Nodup) : (dictKeys (dictMerge a b)).Nodup := by
  induction b generalizing a with
  | nil => exact h
  | cons p t ih => exact dictMerge_cons a p t ▸ ih _ (nodup_dictKeys_dictInsert p.1 p.2 h)

theorem nodup_dictKeys_mkDict (l : List (α × β)) :
    (dictKeys (mkDict l)).Nodup :=
  nodup_dictKeys_dictMerge [] l List.nodup_nil

theorem mem_dictKeys_dictMerge {a b : List (α × β)} {x : α}
    (h : x ∈ dictKeys (dictMerge a b)) : x ∈ dictKeys a ∨ x ∈ dictKeys b := by
  induction b generalizing a with
  | nil => exact Or.inl h
  | cons p t ih =>
    rw [dictMerge_cons] at h
    rcases ih h with hx | hx
    · rw [dictKeys_dictInsert] at hx
      by_cases hmem : p.1 ∈ dictKeys a
      · rw [if_pos hmem] at hx
        exact Or.inl hx
      · rw [if_neg hmem] at hx
        rcases List.mem_append.mp hx with hxa | hxp
        · exact Or.inl hxa
        · right
          rw [dictKeys_cons]
          exact List.mem_cons.mpr (Or.inl (List.mem_singleton.mp hxp))
    · right
      rw [dictKeys_cons]
      exact List.mem_cons_of_mem _ hx

theorem mem_dictKeys_mkDict {l : List (α × β)} {x : α}
    (h : x ∈ dictKeys (mkDict l)) : x ∈ dictKeys l := by
  rcases mem_dictKeys_dictMerge h with hx | hx
  · simp [dictKeys] at hx
  · exact hx

theorem dictMerge_eq_append {a b : List (α × β)}
    (hb : (dictKeys b).Nodup) (hab : ∀ k ∈ dictKeys b, k ∉ dictKeys a) :
    dictMerge a b = a ++ b := by
  induction b generalizing a with
  | nil => simp [dictMerge]
  | cons p t ih =>
    rw [dictKeys_cons] at hb
    obtain ⟨hp1t, hbt⟩ := List.nodup_cons.mp hb
    have hp1 : p.1 ∈ dictKeys (p :: t) := by
      rw [dictKeys_cons]
      exact List.mem_cons_self _ _
    have hins : dictInsert a p.1 p.2 = a ++ [p] := dictInsert_of_not_mem p.2 (hab p.1 hp1)
    have hab' : ∀ k ∈ dictKeys t, k ∉ dictKeys (a ++ [p]) := by
      intro k hk
      have hka : k ∉ dictKeys a := by
        refine hab k ?_
        rw [dictKeys_cons]
        exact List.mem_cons_of_mem _ hk
      have hkp : ¬ k = p.1 := fun h => hp1t (h ▸ hk)
      rw [dictKeys_append]
      intro hcon
      rcases List.mem_append.mp hcon with hca | hcp
      · exact hka hca
      · exact hkp (List.mem_singleton.mp (by simpa [dictKeys] using hcp))
    calc dictMerge a (p :: t) = dictMerge (a ++ [p]) t := by rw [dictMerge_cons, hins]
      _ = (a ++ [p]) ++ t := ih hbt hab'
      _ = a ++ p :: t := by simp

theorem mkDict_eq_self {l : List (α × β)} (h : (dictKeys l).Nodup) :
    mkDict l = l := by
  simpa using dictMerge_eq_append (a := []) h (by simp [dictKeys])

theorem dictLookup_dictMerge (a : List (α × β)) {b : List (α × β)}
    (hb : (dictKeys b).Nodup) (k : α) :
    dictLookup (dictMerge a b) k =
      ((dictLookup b k).orElse fun _ => dictLookup a k) := by
  induction b generalizing a with
  | nil => simp [dictMerge, dictLookup, Option.orElse]
  | cons p t ih =>
    rw [dictKeys_cons] at hb
    obtain ⟨hp1t, hbt⟩ := List.nodup_cons.mp hb
    rw [dictMerge_cons, ih _ hbt]
    by_cases hk : p.1 = k
    · subst hk
      rw [dictLookup_eq_none_of_not_mem hp1t]
      simp [dictLookup, dictLookup_dictInsert, Option.orElse]
    · cases htk : dictLookup t k with
      | none => simp [dictLookup, hk, dictLookup_dictInsert, htk, Option.orElse]
      | some v => simp [dictLookup, hk, dictLookup_dictInsert, htk, Option.orElse]

end DictLemmas

/-! ## The reconciliation engine (`reconcile_background_job`, lines 116-194)

A dataset is given to the engine as a header (the `DictReader` fieldnames,
i.e. the raw cells of the first CSV line) together with the data rows (each a
list of cells).  `csv.DictReader` turns a row into `dict(zip(fieldnames, row))`;
the engine rows in this file always have the header's arity, so the `restkey` /
`restval` padding modelled separately for the loader does not arise here.

A `KeyError` raised by `smart_row[...]` or `genesis_row[...]` aborts the whole
background job before any output is produced, which the embedding models with
`Except String`: an `.error k` is an uncaught `KeyError k`. -/

/-- The record `csv.DictReader` yields for a data row: `dict(zip(header, cells))`. -/
def mkRecord (header cells : List String) : Record :=
  mkDict (header.zip cells)

/-- Python `d[k]`: the value, or a `KeyError` naming the missing key. -/
def pyGet (d : Record) (k : String) : Except String String :=
  match dictLookup d k with
  | some v => Except.ok v
  | none => Except.error k

/-- The hard-coded match key pairs of the inner loop (lines 141-165), as
(primary field, reference field): the code tests
`smart_row[rf] == genesis_row[pf]` for these four pairs in this order,
breaking on the first pair that matches. -/
def riSpec : List (String × String) :=
  [("TXT VEHICLE COVERNOTE", "Cover No"),
   ("TXT VEHICLESUBCLASS", "Sticker No"),
   ("TXT REGISTRATION NO", "Vehicle RegNo"),
   ("TXT Policy No Char", "Policy No")]

/-- One candidate Reference row against all key pairs, in spec order
(the four sequential `if` blocks of lines 141-165; the `not matching_policy`
guards are vacuous because every successful test is followed by `break`).
Python evaluates `smart_row[rf]` before `genesis_row[pf]`. -/
def tryPairs (g r : Record) : List (String × String) → Except String Bool
  | [] => Except.ok false
  | (pf, rf) :: rest =>
    match pyGet r rf with
    | Except.error e => Except.error e
    | Except.ok rv =>
      match pyGet g pf with
      | Except.error e => Except.error e
      | Except.ok gv => if rv = gv then Except.ok true else tryPairs g r rest

/-- The scan of the Reference rows for one Primary row (lines 141-165): the
first row satisfying any key pair is selected and the loop `break`s. -/
def findMatch (spec : List (String × String)) (g : Record) :
    List Record → Except String (Option Record)
  | [] => Except.ok none
  | r :: rs =>
    match tryPairs g r spec with
    | Except.error e => Except.error e
    | Except.ok true => Except.ok (some r)
    | Except.ok false => findMatch spec g rs

/-- The record the rewound `DictReader` yields first once it has already been
started: `smart_policy_file.seek(0)` resets the file but not the reader's
`line_num`, so the header line is re-parsed as a data row, giving
`dict(zip(fieldnames, fieldnames))` — every column mapped to its own name. -/
def phantomRec (sHeader : List String) : Record :=
  mkRecord sHeader sHeader

/-- The Primary loop (lines 136-171).  `refsFirst` is the Reference sequence
seen by the first Primary row (reader not yet started: the header line is
consumed as the header), `refsLater` the sequence seen after any iteration has
run (`phantomRec` first, then the data rows).  Appends to
`reconciled_data` / `unreconciled_genesis_data` / `matched_smart_policy`
become the three returned lists, in loop order.  `if matching_policy:` is
Python truthiness: an empty selected dict would also fall into the
unreconciled branch. -/
def processGenesis (spec : List (String × String)) (refsFirst refsLater : List Record)
    (first : Bool) :
    List Record → Except String (List Record × List Record × List Record)
  | [] => Except.ok ([], [], [])
  | g :: gs =>
    match findMatch spec g (if first then refsFirst else refsLater) with
    | Except.error e => Except.error e
    | Except.ok mp =>
      match processGenesis spec refsFirst refsLater false gs with
      | Except.error e => Except.error e
      | Except.ok (recd, unm, ms) =>
        match mp with
        | some r =>
          if r = [] then Except.ok (recd, g :: unm, ms)
          else Except.ok (dictMerge g r :: recd, unm, r :: ms)
        | none => Except.ok (recd, g :: unm, ms)

/-- The final pass (lines 173-177): keep every scanned row that is not in
`matched_smart_policy`, where `not in` compares by Python dict equality. -/
def unmatchedSmart (ms : List Record) (refs : List Record) : List Record :=
  refs.filter (fun r => !(pyMem r ms))

/-- The outcome of one background-job run: `reconciled_data`,
`unreconciled_genesis_data`, `unreconciled_smart_data` and the bookkeeping
list `matched_smart_policy`. -/
structure RunResult where
  reconciled : List Record
  unreconGenesis : List Record
  unreconSmart : List Record
  matchedSmart : List Record
deriving DecidableEq

/-- The whole reconciliation computation of `reconcile_background_job`
(lines 122-177) on two loaded datasets.  The Smart Policy file cursor is reset
before every Primary row's scan and before the final pass; because the
`DictReader` is never recreated, every scan after the very first one (and the
final pass, whenever the Primary loop ran at least once) sees
`phantomRec sHeader` before the data rows. -/
def reconcileCode (spec : List (String × String)) (gHeader : List String)
    (gRows : List (List String)) (sHeader : List String) (sRows : List (List String)) :
    Except String RunResult :=
  match processGenesis spec (sRows.map (mkRecord sHeader))
      (phantomRec sHeader :: sRows.map (mkRecord sHeader)) true
      (gRows.map (mkRecord gHeader)) with
  | Except.error e => Except.error e
  | Except.ok (recd, unm, ms) =>
    Except.ok
      { reconciled := recd
        unreconGenesis := unm
        unreconSmart := unmatchedSmart ms
          (if gRows.isEmpty then sRows.map (mkRecord sHeader)
           else phantomRec sHeader :: sRows.map (mkRecord sHeader))
        matchedSmart := ms }

/-- The three counts persisted at lines 180-194: `len(reconciled_data)`,
`len(unreconciled_genesis_data)`, `len(unreconciled_smart_data)`. -/
def summaryCounts (res : RunResult) : Nat × Nat × Nat :=
  (res.reconciled.length, res.unreconGenesis.length, res.unreconSmart.length)

/-! ## The nested in-memory scan the spec describes

Section 4.2 of the spec describes the engine as a plain O(P×R) nested scan
over two in-memory record sequences, and section 9 asserts that replacing the
rewound file cursor with this scan is "a representational simplification, not
a behavior change".  The following definitions follow the spec's words: the
same per-row matching (`findMatch`), but every Primary row scans the same
Reference record sequence, and the unmatched-Reference pass runs over exactly
that sequence. -/

/-- Nested scan per spec section 4.2, steps 1-5: every Primary record scans
the in-memory Reference sequence from the start. -/
def specNestedScan (spec : List (String × String)) (srecs : List Record) :
    List Record → Except String (List Record × List Record × List Record)
  | [] => Except.ok ([], [], [])
  | g :: gs =>
    match findMatch spec g srecs with
    | Except.error e => Except.error e
    | Except.ok mp =>
      match specNestedScan spec srecs gs with
      | Except.error e => Except.error e
      | Except.ok (recd, unm, ms) =>
        match mp with
        | some r => Except.ok (dictMerge g r :: recd, unm, r :: ms)
        | none => Except.ok (recd, g :: unm, ms)

/-- The whole engine as re-specified in spec sections 4.2 and 9: nested scan
plus the unmatched-Reference pass over the in-memory Reference records. -/
def reconcileSpecModel (spec : List (String × String)) (gHeader : List String)
    (gRows : List (List String)) (sHeader : List String) (sRows : List (List String)) :
    Except String RunResult :=
  match specNestedScan spec (sRows.map (mkRecord sHeader)) (gRows.map (mkRecord gHeader)) with
  | Except.error e => Except.error e
  | Except.ok (recd, unm, ms) =>
    Except.ok
      { reconciled := recd
        unreconGenesis := unm
        unreconSmart := unmatchedSmart ms (sRows.map (mkRecord sHeader))
        matchedSmart := ms }

/-! ## The dataset loader (`csv.DictReader`, lines 72-79 and 126-127)

The repository loads both datasets with plain `csv.DictReader`.  Tokenising a
CSV line into cells is outside the modelled scope: the loader input here is
the list of already-split lines.  `DictReader` semantics (CPython `csv.py`):
the first line is the fieldnames; a data row is `dict(zip(fieldnames, row))`,
then extra cells are collected in a list under the `restkey` (`None`) and
missing columns are filled with `restval` (`None`); blank rows are skipped;
an empty input yields `fieldnames = None` and no rows.  No exception is ever
raised for an arity mismatch or an empty input. -/

/-- A cell value as `DictReader` can produce it: a string, Python `None`
(the default `restval` for missing columns), or the list of extra cells
stored under the `restkey`. -/
inductive Cell where
  | str : String → Cell
  | null : Cell
  | rest : List String → Cell
deriving DecidableEq

/-- One `DictReader` data row.  Keys are `Option String` because the
`restkey` is Python `None`. -/
def dictReaderRow (fieldnames row : List String) : List (Option String × Cell) :=
  if fieldnames.length < row.length then
    dictInsert
      (mkDict ((fieldnames.zip row).map
        (fun p => ((some p.1 : Option String), Cell.str p.2))))
      none (Cell.rest (row.drop fieldnames.length))
  else
    (fieldnames.drop row.length).foldl (fun d k => dictInsert d (some k) Cell.null)
      (mkDict ((fieldnames.zip row).map
        (fun p => ((some p.1 : Option String), Cell.str p.2))))

/-- A loaded dataset: the header (fieldnames) and the parsed rows.  An empty
header models `fieldnames = None`. -/
structure PyDataset where
  header : List String
  rows : List (List (Option String × Cell))
deriving DecidableEq

/-- The loader: what iterating a fresh `csv.DictReader` over the given lines
produces.  It is total — arity mismatches are padded or collected, blank rows
are skipped, and empty input yields the empty dataset. -/
def dictReaderLoad (lines : List (List String)) : PyDataset :=
  match lines with
  | [] => ⟨[], []⟩
  | h :: t => ⟨h, (t.filter (fun r => !r.isEmpty)).map (dictReaderRow h)⟩

/-- Python `str.strip()`: drop whitespace from both ends of a string
(modelled on the character list so that it evaluates). -/
def pyStrip (s : String) : String :=
  String.mk (((s.data.dropWhile Char.isWhitespace).reverse.dropWhile
    Char.isWhitespace).reverse)

/-- The whitespace-stripped header copies computed at lines 75-79 of
`validate_and_reconcile` (`[col.strip() for col in reader.fieldnames]`).
They are compared against the (equally stripped) template columns and then
discarded; the background job re-reads the files with raw fieldnames. -/
def stripHeader (cols : List String) : List String :=
  cols.map (fun c => pyStrip c)

/-! ## Structural facts about the Primary loop -/

theorem findMatch_some_mem {spec : List (String × String)} {g r : Record} :
    ∀ {l : List Record}, findMatch spec g l = Except.ok (some r) → r ∈ l := by
  intro l
  induction l with
  | nil => intro h; simp [findMatch] at h
  | cons x rs ih =>
    intro h
    rw [findMatch] at h
    cases htp : tryPairs g x spec with
    | error e => rw [htp] at h; simp at h
    | ok b =>
      rw [htp] at h
      cases b with
      | false => exact List.mem_cons_of_mem _ (ih h)
      | true =>
        simp only [Except.ok.injEq, Option.some.injEq] at h
        exact h ▸ List.mem_cons_self _ _

/-- Everything the Primary loop guarantees at once: the reconciled rows are
the merges of a list of (Primary, selected) pairs, `matched_smart_policy` is
the list of selected records, the matched Primary rows and the unmatched
Primary rows each form a subsequence of the Primary records, every Primary
record lands in exactly one bucket, and every selected record comes from one
of the two scanned Reference sequences. -/
theorem processGenesis_ok {spec : List (String × String)} {rf rl : List Record} :
    ∀ {gs : List Record} {first : Bool} {recd unm ms : List Record},
      processGenesis spec rf rl first gs = Except.ok (recd, unm, ms) →
      ∃ ps : List (Record × Record),
        recd = ps.map (fun q => dictMerge q.1 q.2) ∧
        ms = ps.map (fun q => q.2) ∧
        (ps.map (fun q => q.1)).Sublist gs ∧
        unm.Sublist gs ∧
        recd.length + unm.length = gs.length ∧
        ∀ q ∈ ps, q.2 ∈ rf ∨ q.2 ∈ rl := by
  intro gs
  induction gs with
  | nil =>
    intro first recd unm ms h
    simp only [processGenesis, Except.ok.injEq, Prod.mk.injEq] at h
    obtain ⟨h1, h2, h3⟩ := h
    subst h1; subst h2; subst h3
    exact ⟨[], rfl, rfl, List.nil_sublist _, List.nil_sublist _, rfl, by simp⟩
  | cons g gs ih =>
    intro first recd unm ms h
    rw [processGenesis] at h
    cases hfm : findMatch spec g (if first then rf else rl) with
    | error e =>
      rw [hfm] at h
      have hbad : (Except.error e : Except String (List Record × List Record × List Record)) =
          Except.ok (recd, unm, ms) := h
      simp at hbad
    | ok mp =>
      rw [hfm] at h
      cases hpg : processGenesis spec rf rl false gs with
      | error e =>
        rw [hpg] at h
        have hbad : (Except.error e : Except String (List Record × List Record × List Record)) =
            Except.ok (recd, unm, ms) := h
        simp at hbad
      | ok trip =>
        obtain ⟨recd', unm', ms'⟩ := trip
        rw [hpg] at h
        obtain ⟨ps, hrec, hms, hsubp, hsubu, hlen, hmem⟩ := ih hpg
        cases mp with
        | none =>
          have h' : (Except.ok (recd', g :: unm', ms') :
              Except String (List Record × List Record × List Record)) =
              Except.ok (recd, unm, ms) := h
          simp only [Except.ok.injEq, Prod.mk.injEq] at h'
          obtain ⟨h1, h2, h3⟩ := h'
          subst h1; subst h2; subst h3
          refine ⟨ps, hrec, hms, hsubp.cons g, hsubu.cons₂ g, ?_, hmem⟩
          simp only [List.length_cons]
          omega
        | some r =>
          have h' : (if r = [] then Except.ok (recd', g :: unm', ms')
              else Except.ok (dictMerge g r :: recd', unm', r :: ms') :
              Except String (List Record × List Record × List Record)) =
              Except.ok (recd, unm, ms) := h
          by_cases hre : r = []
          · rw [if_pos hre] at h'
            simp only [Except.ok.injEq, Prod.mk.injEq] at h'
            obtain ⟨h1, h2, h3⟩ := h'
            subst h1; subst h2; subst h3
            refine ⟨ps, hrec, hms, hsubp.cons g, hsubu.cons₂ g, ?_, hmem⟩
            simp only [List.length_cons]
            omega
          · rw [if_neg hre] at h'
            simp only [Except.ok.injEq, Prod.mk.injEq] at h'
            obtain ⟨h1, h2, h3⟩ := h'
            subst h1; subst h2; subst h3
            have hrmem : r ∈ rf ∨ r ∈ rl := by
              have hr := findMatch_some_mem hfm
              cases first with
              | false => exact Or.inr (by simpa using hr)
              | true => exact Or.inl (by simpa using hr)
            refine ⟨(g, r) :: ps, by simp [hrec], by simp [hms], ?_, hsubu.cons g, ?_, ?_⟩
            · simpa using hsubp.cons₂ g
            · simp only [List.length_cons]
              omega
            · intro q hq
              rcases List.mem_cons.mp hq with hq1 | hq2
              · exact hq1 ▸ hrmem
              · exact hmem q hq2

/-- Unfolding of a successful `reconcileCode` run into the loop outcome. -/
theorem reconcileCode_ok {spec : List (String × String)} {gHeader : List String}
    {gRows : List (List String)} {sHeader : List String} {sRows : List (List String)}
    {res : RunResult}
    (h : reconcileCode spec gHeader gRows sHeader sRows = Except.ok res) :
    ∃ recd unm ms,
      processGenesis spec (sRows.map (mkRecord sHeader))
        (phantomRec sHeader :: sRows.map (mkRecord sHeader)) true
        (gRows.map (mkRecord gHeader)) = Except.ok (recd, unm, ms) ∧
      res = ⟨recd, unm,
        unmatchedSmart ms
          (if gRows.isEmpty then sRows.map (mkRecord sHeader)
           else phantomRec sHeader :: sRows.map (mkRecord sHeader)), ms⟩ := by
  rw [reconcileCode] at h
  cases hpg : processGenesis spec (sRows.map (mkRecord sHeader))
      (phantomRec sHeader :: sRows.map (mkRecord sHeader)) true
      (gRows.map (mkRecord gHeader)) with
  | error e => rw [hpg] at h; simp at h
  | ok trip =>
    obtain ⟨recd, unm, ms⟩ := trip
    rw [hpg] at h
    simp only [Except.ok.injEq] at h
    exact ⟨recd, unm, ms, rfl, h.symm⟩

/-! ## Claim theorems for the confirmed functional-correctness claims -/

/-- C5: in every successful run, the number of Matched rows plus the number of
UnmatchedPrimary rows equals the number of Primary records, and the three
summary counts persisted by the job equal the lengths of Matched,
UnmatchedPrimary and UnmatchedReference respectively. -/
theorem c5_completeness_counts {spec : List (String × String)}
    {gHeader : List String} {gRows : List (List String)}
    {sHeader : List String} {sRows : List (List String)} {res : RunResult}
    (h : reconcileCode spec gHeader gRows sHeader sRows = Except.ok res) :
    res.reconciled.length + res.unreconGenesis.length = gRows.length ∧
    summaryCounts res =
      (res.reconciled.length, res.unreconGenesis.length, res.unreconSmart.length) := by
  obtain ⟨recd, unm, ms, hpg, hres⟩ := reconcileCode_ok h
  obtain ⟨ps, _, _, _, _, hlen, _⟩ := processGenesis_ok hpg
  subst hres
  refine ⟨?_, rfl⟩
  simpa using hlen

/-- C2: in every successful run, each Reference record either is value-equal
to a selected match that was merged into some Matched row, or appears in
UnmatchedReference — never in neither. -/
theorem c2_reference_accounting {spec : List (String × String)}
    {gHeader : List String} {gRows : List (List String)}
    {sHeader : List String} {sRows : List (List String)} {res : RunResult}
    (h : reconcileCode spec gHeader gRows sHeader sRows = Except.ok res) :
    ∀ r ∈ sRows.map (mkRecord sHeader),
      (∃ g m, dictEqv r m = true ∧ dictMerge g m ∈ res.reconciled) ∨
      r ∈ res.unreconSmart := by
  intro r hr
  obtain ⟨recd, unm, ms, hpg, hres⟩ := reconcileCode_ok h
  obtain ⟨ps, hrec, hms, _, _, _, _⟩ := processGenesis_ok hpg
  subst hres
  by_cases hpm : pyMem r ms = true
  · left
    obtain ⟨m, hm_mem, hm_eqv⟩ := List.any_eq_true.mp hpm
    obtain ⟨q, hq, hq2⟩ := List.mem_map.mp (hms ▸ hm_mem)
    refine ⟨q.1, m, hm_eqv, ?_⟩
    show dictMerge q.1 m ∈ recd
    rw [hrec]
    exact List.mem_map.mpr ⟨q, hq, by rw [hq2]⟩
  · right
    have hrf : r ∈ (if gRows.isEmpty then sRows.map (mkRecord sHeader)
        else phantomRec sHeader :: sRows.map (mkRecord sHeader)) := by
      split
      · exact hr
      · exact List.mem_cons_of_mem _ hr
    show r ∈ unmatchedSmart ms _
    simp only [unmatchedSmart, List.mem_filter]
    exact ⟨hrf, by simp [Bool.not_eq_true] at hpm ⊢; exact hpm⟩

/-- C6: in every successful run, every Matched row is the Primary record's
fields overlaid with the selected record's fields — on every column the
selected record's value wins when present, the Primary value is used
otherwise — and every UnmatchedPrimary row is one of the Primary records,
unmodified. -/
theorem c6_merge_semantics {spec : List (String × String)}
    {gHeader : List String} {gRows : List (List String)}
    {sHeader : List String} {sRows : List (List String)} {res : RunResult}
    (h : reconcileCode spec gHeader gRows sHeader sRows = Except.ok res) :
    (∀ row ∈ res.reconciled, ∃ g mp, g ∈ gRows.map (mkRecord gHeader) ∧
        row = dictMerge g mp ∧
        ∀ k, dictLookup row k = ((dictLookup mp k).orElse fun _ => dictLookup g k)) ∧
    (∀ u ∈ res.unreconGenesis, u ∈ gRows.map (mkRecord gHeader)) := by
  obtain ⟨recd, unm, ms, hpg, hres⟩ := reconcileCode_ok h
  obtain ⟨ps, hrec, hms, hsubp, hsubu, _, hmem⟩ := processGenesis_ok hpg
  subst hres
  constructor
  · intro row hrow
    have hrow' : row ∈ recd := hrow
    rw [hrec] at hrow'
    obtain ⟨q, hq, hqe⟩ := List.mem_map.mp hrow'
    refine ⟨q.1, q.2, hsubp.subset (List.mem_map.mpr ⟨q, hq, rfl⟩), hqe.symm, ?_⟩
    intro k
    have hnk : (dictKeys q.2).Nodup := by
      rcases hmem q hq with hq2 | hq2
      · obtain ⟨row', _, hrow'⟩ := List.mem_map.mp hq2
        exact hrow' ▸ nodup_dictKeys_mkDict _
      · rcases List.mem_cons.mp hq2 with hph | hq2'
        · rw [hph]
          exact nodup_dictKeys_mkDict _
        · obtain ⟨row', _, hrow'⟩ := List.mem_map.mp hq2'
          exact hrow' ▸ nodup_dictKeys_mkDict _
    rw [← hqe]
    exact dictLookup_dictMerge q.1 hnk k
  · intro u hu
    exact hsubu.subset hu

/-- A key absent from the header is absent from every row record, so the
lookup is a `KeyError`. -/
theorem dictLookup_mkRecord_none {h row : List String} {k : String} (hk : k ∉ h) :
    dictLookup (mkRecord h row) k = none := by
  apply dictLookup_eq_none_of_not_mem
  intro hcon
  apply hk
  have hmem := mem_dictKeys_mkDict hcon
  have htake : k ∈ h.take row.length := by
    rw [← map_fst_zip_eq_take]
    exact hmem
  exact List.take_subset _ _ htake

/-- Folding fresh-key insertions appends the new entries in order. -/
theorem foldl_dictInsert_const {α β γ : Type} [DecidableEq α] (f : γ → α) (v : β) :
    ∀ (ks : List γ) (d : List (α × β)),
      (∀ k ∈ ks, f k ∉ dictKeys d) → ((ks.map f).Nodup) →
      ks.foldl (fun d k => dictInsert d (f k) v) d =
        d ++ ks.map (fun k => (f k, v)) := by
  intro ks
  induction ks with
  | nil => intro d _ _; simp
  | cons k t ih =>
    intro d hmem hnd
    rw [List.map_cons] at hnd
    obtain ⟨hknot, hndt⟩ := List.nodup_cons.mp hnd
    have hmem' : ∀ k' ∈ t, f k' ∉ dictKeys (d ++ [(f k, v)]) := by
      intro k' hk'
      rw [dictKeys_append]
      intro hcon
      rcases List.mem_append.mp hcon with hca | hcp
      · exact hmem k' (List.mem_cons_of_mem _ hk') hca
      · have hfk : f k' = f k := by simpa [dictKeys] using hcp
        exact hknot (hfk ▸ List.mem_map_of_mem f hk')
    rw [List.foldl_cons, dictInsert_of_not_mem v (hmem k (List.mem_cons_self k t)),
      ih (d ++ [(f k, v)]) hmem' hndt]
    simp

/-- C1 (code bug, evaluated at a failing input): for the second Primary row
no Reference record satisfies any key pair of the hard-coded MatchKeySpec, so
the claim says it must be unmatched; the code nevertheless matches it against
the synthetic record obtained by re-reading the Smart Policy header line as a
data row (each column mapped to its own name), because the row's
`TXT VEHICLE COVERNOTE` value is the literal string `Cover No`. -/
theorem c1_phantom_header_match :
    findMatch riSpec
      (mkRecord
        ["TXT VEHICLE COVERNOTE", "TXT VEHICLESUBCLASS", "TXT REGISTRATION NO",
          "TXT Policy No Char"]
        ["Cover No", "x", "y", "z"])
      ([["q", "q", "q", "q"]].map
        (mkRecord ["Cover No", "Sticker No", "Vehicle RegNo", "Policy No"])) =
      Except.ok none ∧
    reconcileCode riSpec
      ["TXT VEHICLE COVERNOTE", "TXT VEHICLESUBCLASS", "TXT REGISTRATION NO",
        "TXT Policy No Char"]
      [["c1", "s1", "r1", "p1"], ["Cover No", "x", "y", "z"]]
      ["Cover No", "Sticker No", "Vehicle RegNo", "Policy No"]
      [["q", "q", "q", "q"]] =
    Except.ok
      (RunResult.mk
        [[("TXT VEHICLE COVERNOTE", "Cover No"), ("TXT VEHICLESUBCLASS", "x"),
          ("TXT REGISTRATION NO", "y"), ("TXT Policy No Char", "z"),
          ("Cover No", "Cover No"), ("Sticker No", "Sticker No"),
          ("Vehicle RegNo", "Vehicle RegNo"), ("Policy No", "Policy No")]]
        [[("TXT VEHICLE COVERNOTE", "c1"), ("TXT VEHICLESUBCLASS", "s1"),
          ("TXT REGISTRATION NO", "r1"), ("TXT Policy No Char", "p1")]]
        [[("Cover No", "q"), ("Sticker No", "q"), ("Vehicle RegNo", "q"),
          ("Policy No", "q")]]
        [[("Cover No", "Cover No"), ("Sticker No", "Sticker No"),
          ("Vehicle RegNo", "Vehicle RegNo"), ("Policy No", "Policy No")]]) :=
  ⟨rfl, rfl⟩

/-- C3 (code bug, evaluated at a failing input): the cursor-rewinding run and
the in-memory nested scan disagree — the code's UnmatchedReference starts
with the Smart Policy header re-read as a data record, which the nested scan
never produces. -/
theorem c3_cursor_rescan_differs_from_nested_scan :
    reconcileCode [("k", "k")] ["k"] [["a"], ["b"]] ["k"] [["c"]] =
      Except.ok
        (RunResult.mk [] [[("k", "a")], [("k", "b")]]
          [[("k", "k")], [("k", "c")]] []) ∧
    reconcileSpecModel [("k", "k")] ["k"] [["a"], ["b"]] ["k"] [["c"]] =
      Except.ok
        (RunResult.mk [] [[("k", "a")], [("k", "b")]] [[("k", "c")]] []) ∧
    reconcileCode [("k", "k")] ["k"] [["a"], ["b"]] ["k"] [["c"]] ≠
      reconcileSpecModel [("k", "k")] ["k"] [["a"], ["b"]] ["k"] [["c"]] := by
  refine ⟨rfl, rfl, ?_⟩
  intro hcon
  have hcode : reconcileCode [("k", "k")] ["k"] [["a"], ["b"]] ["k"] [["c"]] =
      Except.ok
        (RunResult.mk [] [[("k", "a")], [("k", "b")]]
          [[("k", "k")], [("k", "c")]] []) := rfl
  have hspec : reconcileSpecModel [("k", "k")] ["k"] [["a"], ["b"]] ["k"] [["c"]] =
      Except.ok
        (RunResult.mk [] [[("k", "a")], [("k", "b")]] [[("k", "c")]] []) := rfl
  rw [hcode, hspec] at hcon
  exact absurd (Except.ok.inj hcon) (by decide)

/-- C7 (code bug, evaluated at a failing input): Matched and UnmatchedPrimary
do mirror the Primary order, but UnmatchedReference is not a subsequence of
the Reference rows — it starts with the synthetic header-as-data record,
which belongs to no Reference row. -/
theorem c7_unmatched_reference_order_violation :
    reconcileCode [("k", "k")] ["k"] [["a"]] ["k"] [["b"]] =
      Except.ok
        (RunResult.mk [] [[("k", "a")]] [[("k", "k")], [("k", "b")]] []) ∧
    ¬ List.Sublist
        (RunResult.mk [] [[("k", "a")]] [[("k", "k")], [("k", "b")]] []).unreconSmart
        ([["b"]].map (mkRecord ["k"])) := by
  refine ⟨rfl, ?_⟩
  intro hcon
  exact absurd hcon.length_le (by decide)

/-- C10: in every successful run, any record that is value-equal (Python dict
equality) to some record selected as a match does not appear in
UnmatchedReference — duplicate Reference rows equal to a matched one are
excluded even though they themselves were never selected. -/
theorem c10_value_equal_duplicates_excluded {spec : List (String × String)}
    {gHeader : List String} {gRows : List (List String)}
    {sHeader : List String} {sRows : List (List String)} {res : RunResult}
    {r : Record}
    (h : reconcileCode spec gHeader gRows sHeader sRows = Except.ok res)
    (hm : pyMem r res.matchedSmart = true) :
    r ∉ res.unreconSmart := by
  obtain ⟨recd, unm, ms, hpg, hres⟩ := reconcileCode_ok h
  subst hres
  intro hcon
  simp only [unmatchedSmart, List.mem_filter] at hcon
  have hfalse : pyMem r ms = false := by
    have := hcon.2
    simpa using this
  have hms : pyMem r ms = true := hm
  rw [hfalse] at hms
  exact Bool.false_ne_true hms

/-- C8 (counterexample): the MatchKeySpec names column `C`, absent from the
Reference header `[B]`, yet the run completes and returns full output: the
first key pair matches on the first Reference row, so the second pair — and
its missing column — is never consulted. -/
theorem c8_missing_column_no_abort_counterexample :
    ("C" ∉ (["B"] : List String)) ∧
    reconcileCode [("A", "B"), ("A", "C")] ["A"] [["x"]] ["B"] [["x"]] =
      Except.ok
        (RunResult.mk [[("A", "x"), ("B", "x")]] [] [[("B", "B")]]
          [[("B", "x")]]) :=
  ⟨by decide, rfl⟩

/-- C8 (amended): the engine fails (an uncaught `KeyError`, the code's
realisation of MissingFieldError) whenever a key pair naming a missing column
is actually evaluated; in particular, if the FIRST key pair names a column
absent from the Primary or the Reference header and both datasets are
nonempty, the whole call aborts with an error and no output is produced.  A
missing column in a later pair does not necessarily abort the run, because an
earlier successful pair stops the scan before the column is consulted. -/
theorem c8_missing_column_lazy_amended
    {pf rf : String} {t : List (String × String)}
    {gHeader : List String} {g0 : List String} {gt : List (List String)}
    {sHeader : List String} {s0 : List String} {st : List (List String)}
    (hmiss : pf ∉ gHeader ∨ rf ∉ sHeader) :
    ∃ e, reconcileCode ((pf, rf) :: t) gHeader (g0 :: gt) sHeader (s0 :: st) =
      Except.error e := by
  have htp : ∃ e, tryPairs (mkRecord gHeader g0) (mkRecord sHeader s0)
      ((pf, rf) :: t) = Except.error e := by
    rcases hmiss with hpf | hrf
    · have hgp : pyGet (mkRecord gHeader g0) pf = Except.error pf := by
        simp [pyGet, dictLookup_mkRecord_none hpf]
      cases hlr : pyGet (mkRecord sHeader s0) rf with
      | error e => exact ⟨e, by simp [tryPairs, hlr]⟩
      | ok v => exact ⟨pf, by simp [tryPairs, hlr, hgp]⟩
    · exact ⟨rf, by simp [tryPairs, pyGet, dictLookup_mkRecord_none hrf]⟩
  obtain ⟨e, htp⟩ := htp
  refine ⟨e, ?_⟩
  have hfm : findMatch ((pf, rf) :: t) (mkRecord gHeader g0)
      (mkRecord sHeader s0 :: st.map (mkRecord sHeader)) = Except.error e := by
    rw [findMatch, htp]
  have hpg : processGenesis ((pf, rf) :: t) ((s0 :: st).map (mkRecord sHeader))
      (phantomRec sHeader :: (s0 :: st).map (mkRecord sHeader)) true
      ((g0 :: gt).map (mkRecord gHeader)) = Except.error e := by
    simp only [List.map_cons]
    rw [processGenesis, if_pos rfl, hfm]
  rw [reconcileCode, hpg]

/-- Witness for C8's amended statement at a concrete input: the first (and
only) key pair names column `x`, absent from the Primary header `[a]`, both
datasets are nonempty, and the run indeed errors. -/
theorem c8_missing_column_lazy_amended_witness :
    (("x" : String) ∉ (["a"] : List String) ∨ ("y" : String) ∉ (["b"] : List String)) ∧
    ∃ e, reconcileCode [("x", "y")] ["a"] [["1"]] ["b"] [["2"]] = Except.error e :=
  ⟨Or.inl (by decide), c8_missing_column_lazy_amended (Or.inl (by decide))⟩

/-- C9 (counterexample): the claim says the Dataset fed to the engine is
keyed by whitespace-stripped column names; in fact the background job's
`DictReader` keys the records by the raw first-line names.  With raw header
`[" Cover No"]` the record key keeps the leading space, the stripped name is
different, and the engine's lookup of the stripped name is a `KeyError`
while the raw name succeeds. -/
theorem c9_untrimmed_keys_counterexample :
    stripHeader [" Cover No"] = ["Cover No"] ∧
    dictKeys (mkRecord [" Cover No"] ["c1"]) = [" Cover No"] ∧
    dictKeys (mkRecord [" Cover No"] ["c1"]) ≠ stripHeader [" Cover No"] ∧
    dictLookup (mkRecord [" Cover No"] ["c1"]) ("Cover No") = none ∧
    dictLookup (mkRecord [" Cover No"] ["c1"]) (" Cover No") = some ("c1") :=
  ⟨rfl, rfl, by decide, rfl, rfl⟩

/-- C9 (amended): the Dataset the engine consumes is keyed by the raw,
untrimmed first-line column names, in original order; whitespace-stripping is
applied only to the header copies used for the template comparison in
`validate_and_reconcile` and never to the records handed to the engine. -/
theorem c9_raw_header_keys_amended {h row : List String}
    (hnd : h.Nodup) (hlen : h.length ≤ row.length) :
    dictKeys (mkRecord h row) = h := by
  have hkeys : dictKeys (h.zip row) = h := by
    show (h.zip row).map Prod.fst = h
    rw [map_fst_zip_eq_take]
    exact List.take_of_length_le hlen
  have hnk : (dictKeys (h.zip row)).Nodup := by
    rw [hkeys]
    exact hnd
  rw [mkRecord, mkDict_eq_self hnk, hkeys]

/-- Witness for C9's amended statement: a header with untrimmed whitespace is
kept verbatim, in order, as the record keys. -/
theorem c9_raw_header_keys_amended_witness :
    ([" A", "B"] : List String).Nodup ∧
    dictKeys (mkRecord [" A", "B"] ["1", "2"]) = [" A", "B"] :=
  ⟨by decide, @c9_raw_header_keys_amended [" A", "B"] ["1", "2"] (by decide) (by decide)⟩

/-- C4 (counterexample): on a data row with fewer cells than the header the
loader does not fail — it produces a Dataset in which the missing column is
padded with `None` — contradicting the claim that a `MalformedInputError` is
raised and no Dataset is produced. -/
theorem c4_loader_no_failure_counterexample :
    dictReaderLoad [["A", "B"], ["x"]] =
      PyDataset.mk ["A", "B"]
        [[((some ("A") : Option String), Cell.str ("x")),
          ((some ("B") : Option String), Cell.null)]] := rfl

/-- C4 (amended): the loader is total and never raises: empty input yields
the empty Dataset; a row longer than the header keeps the zipped columns and
collects the extra cells in a list under the `None` rest key; a row shorter
than the header keeps the zipped columns and pads every remaining column with
`None`. -/
theorem c4_loader_total_amended :
    dictReaderLoad [] = PyDataset.mk [] [] ∧
    ∀ (h row : List String), h.Nodup →
      dictReaderRow h row =
        if h.length < row.length then
          ((h.zip row).map
            (fun p => ((some p.1 : Option String), Cell.str p.2))) ++
            [((none : Option String), Cell.rest (row.drop h.length))]
        else
          ((h.zip row).map
            (fun p => ((some p.1 : Option String), Cell.str p.2))) ++
            (h.drop row.length).map
              (fun k => ((some k : Option String), Cell.null)) := by
  refine ⟨rfl, ?_⟩
  intro h row hnd
  have hkeys : dictKeys ((h.zip row).map
      (fun p => ((some p.1 : Option String), Cell.str p.2))) =
      (h.take row.length).map some := by
    have hcomp : dictKeys ((h.zip row).map
        (fun p => ((some p.1 : Option String), Cell.str p.2))) =
        ((h.zip row).map Prod.fst).map some := by
      show ((h.zip row).map _).map Prod.fst = _
      rw [List.map_map, List.map_map]
      rfl
    rw [hcomp, map_fst_zip_eq_take]
  have hnodupz : (dictKeys ((h.zip row).map
      (fun p => ((some p.1 : Option String), Cell.str p.2)))).Nodup := by
    rw [hkeys]
    exact List.Nodup.map (Option.some_injective _)
      (List.Nodup.sublist (List.take_sublist _ _) hnd)
  have hself := mkDict_eq_self hnodupz
  by_cases hlt : h.length < row.length
  · rw [dictReaderRow, if_pos hlt, if_pos hlt, hself]
    apply dictInsert_of_not_mem
    rw [hkeys]
    intro hcon
    rcases List.mem_map.mp hcon with ⟨a, _, ha⟩
    exact Option.noConfusion ha
  · rw [dictReaderRow, if_neg hlt, if_neg hlt, hself]
    refine foldl_dictInsert_const some Cell.null _ _ ?_ ?_
    · intro k hk
      rw [hkeys]
      intro hcon
      have hkt : k ∈ h.take row.length := by
        rcases List.mem_map.mp hcon with ⟨k', hk', he⟩
        exact (Option.some_injective _ he) ▸ hk'
      exact (List.disjoint_take_drop hnd le_rfl) hkt hk
    · exact List.Nodup.map (Option.some_injective _)
        (List.Nodup.sublist (List.drop_sublist _ _) hnd)

/-- Witness for C4's amended statement: a short row is padded with `None`
(no failure, a Dataset row is produced). -/
theorem c4_loader_total_amended_witness :
    (["A", "B"] : List String).Nodup ∧
    dictReaderRow ["A", "B"] ["x"] =
      [((some ("A") : Option String), Cell.str ("x")),
       ((some ("B") : Option String), Cell.null)] :=
  ⟨by decide, (c4_loader_total_amended.2 ["A", "B"] ["x"] (by decide)).trans (by decide)⟩

/-- Witness for C2 at a concrete run in which two Primary rows both match the
single Reference row, so that row is merged into two Matched rows and the
accounting disjunction holds for it on its left side. -/
theorem c2_reference_accounting_witness :
    (∃ g m, dictEqv ([("k", "v")] : Record) m = true ∧
        dictMerge g m ∈ (RunResult.mk [[("k", "v")], [("k", "v")]] []
          [[("k", "k")]] [[("k", "v")], [("k", "v")]]).reconciled) ∨
    ([("k", "v")] : Record) ∈ (RunResult.mk [[("k", "v")], [("k", "v")]] []
      [[("k", "k")]] [[("k", "v")], [("k", "v")]]).unreconSmart :=
  c2_reference_accounting
    (show reconcileCode [("k", "k")] ["k"] [["v"], ["v"]] ["k"] [["v"]] =
      Except.ok (RunResult.mk [[("k", "v")], [("k", "v")]] []
        [[("k", "k")]] [[("k", "v")], [("k", "v")]]) from rfl)
    [("k", "v")] (by decide)

/-- Witness for C5 at a concrete run: one Primary row, empty Reference
dataset — 0 Matched plus 1 UnmatchedPrimary equals 1 Primary record, and the
summary counts are the list lengths. -/
theorem c5_completeness_counts_witness :
    (RunResult.mk [] [[("a", "u")]] [[("b", "b")]] []).reconciled.length +
      (RunResult.mk [] [[("a", "u")]] [[("b", "b")]] []).unreconGenesis.length =
      ([["u"]] : List (List String)).length ∧
    summaryCounts (RunResult.mk [] [[("a", "u")]] [[("b", "b")]] []) =
      ((RunResult.mk [] [[("a", "u")]] [[("b", "b")]] []).reconciled.length,
       (RunResult.mk [] [[("a", "u")]] [[("b", "b")]] []).unreconGenesis.length,
       (RunResult.mk [] [[("a", "u")]] [[("b", "b")]] []).unreconSmart.length) :=
  c5_completeness_counts
    (show reconcileCode [("a", "b")] ["a"] [["u"]] ["b"] [] =
      Except.ok (RunResult.mk [] [[("a", "u")]] [[("b", "b")]] []) from rfl)

/-- Witness for C6 at a concrete run: the single Matched row is the merge of
the Primary record with the selected record, with the selected record's
values taking precedence. -/
theorem c6_merge_semantics_witness :
    ∃ g mp, g ∈ ([["v"]] : List (List String)).map (mkRecord ["a"]) ∧
      ([("a", "v"), ("b", "v")] : Record) = dictMerge g mp ∧
      ∀ k, dictLookup ([("a", "v"), ("b", "v")] : Record) k =
        ((dictLookup mp k).orElse fun _ => dictLookup g k) :=
  (c6_merge_semantics
    (show reconcileCode [("a", "b")] ["a"] [["v"]] ["b"] [["v"]] =
      Except.ok (RunResult.mk [[("a", "v"), ("b", "v")]] [] [[("b", "b")]]
        [[("b", "v")]]) from rfl)).1
    [("a", "v"), ("b", "v")] (by decide)

/-- Witness for C10 at a concrete run with a duplicated Reference row: the
first copy of the row is matched, and the value-equal second copy is excluded
from UnmatchedReference even though it was never itself selected. -/
theorem c10_value_equal_duplicates_excluded_witness :
    ([("k", "v")] : Record) ∉
      (RunResult.mk [[("k", "v")]] [] [[("k", "k")]] [[("k", "v")]]).unreconSmart :=
  c10_value_equal_duplicates_excluded
    (show reconcileCode [("k", "k")] ["k"] [["v"]] ["k"] [["v"], ["v"]] =
      Except.ok (RunResult.mk [[("k", "v")]] [] [[("k", "k")]]
        [[("k", "v")]]) from rfl)
    (by decide)

end Reliance
